import Mathlib

/-!
Verification of the gummibaum expansion engine against its specification.

The Go sources are shallowly embedded: Go slices become `List`, Go maps built
by insertion loops become functions `String → Option String` built by a fold
(later inserts shadow earlier ones), fallible or panicking operations return
`Option` / `Except`, and the standard-library multi-pattern string replacer
(`strings.NewReplacer(...).Replace`, an external collaborator whose exact
replacement semantics no claim depends on) is passed in as an abstract
function argument `nr`.
-/

namespace Gummibaum

/-- Sentinel returned by several `Column` methods when a key is not found
(expand.go `NoColEntry`). -/
def NoColEntry : String := "NO VALUE"

/-- One insertion into a Go map: the new key shadows any earlier binding
(models one iteration of the loop in expand.go `NewColumn`). -/
def mapInsert (m : String → Option String) (k v : String) : String → Option String :=
  fun s => if s = k then some v else m s

/-- A Go map built by inserting the given pairs left to right
(models the loop `for i := 0; i < n; i++ { m[head[i]] = entries[i] }`). -/
def buildMap (pairs : List (String × String)) : String → Option String :=
  pairs.foldl (fun m kv => mapInsert m kv.1 kv.2) (fun _ => none)

/-- expand.go `Column`: head names, entry values, and the derived lookup map. -/
structure Column where
  Head : List String
  Entries : List String
  Map : String → Option String

/-- expand.go `NewColumn`: pairs `head[i]` with `entries[i]` for
`i < min (len head) (len entries)` (which is exactly what `List.zip` produces)
and builds the lookup map by insertion in increasing `i`. -/
def NewColumn (head entries : List String) : Column :=
  { Head := head, Entries := entries, Map := buildMap (head.zip entries) }

/-- expand.go `Column.GetPos`: the entry at position `i`, or the sentinel if
`i` is out of bounds (the `getD` default is never reached in bounds). -/
def Column.GetPos (c : Column) (i : Int) : String :=
  if i < 0 ∨ (c.Entries.length : Int) ≤ i then NoColEntry
  else c.Entries.getD i.toNat NoColEntry

/-- expand.go `Column.GetKey`: the mapped value for a row name, or the
sentinel if the name is absent from the lookup map. -/
def Column.GetKey (c : Column) (key : String) : String :=
  match c.Map key with
  | some val => val
  | none => NoColEntry

/-- expand.go `ColKeyError`: the error type of the strict accessor tier.
The Go message text built from nondeterministic map iteration order is
abbreviated to a fixed diagnostic string. -/
structure ColKeyError where
  Message : String
deriving DecidableEq

/-- expand.go `NewColKeyError`. -/
def NewColKeyError (msg : String) : ColKeyError := ⟨msg⟩

/-- expand.go `Column.At`: the entry at position `i`, or a `ColKeyError` if
`i` is out of bounds. The bounds test is the same one `GetPos` performs. -/
def Column.At (c : Column) (i : Int) : Except ColKeyError String :=
  if i < 0 ∨ (c.Entries.length : Int) ≤ i then
    .error (NewColKeyError ("invalid index: " ++ toString i))
  else .ok (c.Entries.getD i.toNat NoColEntry)

/-- expand.go `Column.Value`: the mapped value for a row name, or a
`ColKeyError` if the name is absent from the lookup map. -/
def Column.Value (c : Column) (key : String) : Except ColKeyError String :=
  match c.Map key with
  | some val => .ok val
  | none => .error (NewColKeyError ("invalid key: " ++ key))

/-- The dynamic key of the polymorphic accessors (Go `interface\x7b\x7d`):
an int, a string, or a value of any other type. -/
inductive ColKey where
  | int (i : Int)
  | str (s : String)
  | other
deriving DecidableEq

/-- expand.go `Column.Get`: dispatch on the dynamic key type, delegating to
`GetPos` for ints and `GetKey` for strings; any other type yields the
sentinel. -/
def Column.Get (c : Column) (key : ColKey) : String :=
  match key with
  | .int v => c.GetPos v
  | .str v => c.GetKey v
  | .other => NoColEntry

/-- expand.go `Column.Element`: dispatch on the dynamic key type, delegating
to `At` for ints and `Value` for strings; any other type yields an error. -/
def Column.Element (c : Column) (key : ColKey) : Except ColKeyError String :=
  match key with
  | .int v => c.At v
  | .str v => c.Value v
  | .other => .error (NewColKeyError "invalid key type for column: Expect int or string")

/-- expand.go `Collection`: columns sharing one head. -/
structure Collection where
  Head : List String
  Columns : List Column

/-- expand.go `CollectionSource`: an interface with two effectful methods.
The methods are modelled as state transformers over an arbitrary state `σ`
so that the number and the order of the fetches performed by
`NewCollection` is observable. -/
structure CollectionSource (σ : Type) where
  Head : σ → Except String (List String) × σ
  Entries : σ → Except String (List (List String)) × σ

/-- expand.go `NewCollection`: fetch the head, abort on error; fetch the
entries, abort on error; otherwise build one `Column` per row in source
order, all sharing the fetched head. -/
def NewCollection {σ : Type} (source : CollectionSource σ) (s : σ) :
    Except String Collection × σ :=
  match source.Head s with
  | (.error e, s₁) => (.error e, s₁)
  | (.ok head, s₁) =>
    match source.Entries s₁ with
    | (.error e, s₂) => (.error e, s₂)
    | (.ok entries, s₂) =>
      (.ok { Head := head, Columns := entries.map (fun strCol => NewColumn head strCol) }, s₂)

/-- csv.go `CSVReader`: fully materialized csv content. -/
structure CSVReader where
  HeadContent : List String
  ColumnsContent : List (List String)

/-- csv.go `CSVReader.Head` / `CSVReader.Entries` as a `CollectionSource`:
both methods are pure and never fail. -/
def CSVReader.toSource (r : CSVReader) : CollectionSource Unit :=
  { Head := fun s => (.ok r.HeadContent, s)
    Entries := fun s => (.ok r.ColumnsContent, s) }

/-- expand.go `ConstHandler`: holds the `strings.Replacer` built once by
`NewConstHandler` from the constant map; modelled as the resulting
line-rewriting function. -/
structure ConstHandler where
  replace : String → String

/-- expand.go `ConstHandler.HandleLine`: apply the stored replacer. -/
def ConstHandler.HandleLine (h : ConstHandler) (line : String) : String :=
  h.replace line

/-- expand.go `RowHandler`: placeholder to row-name pairs, the optional
escape function, and the currently bound column (`nil` initially). -/
structure RowHandler where
  replaceVarMap : List (String × String)
  replaceFunc : Option (String → String)
  currentCol : Option Column

/-- expand.go `NewRowHandler`: no column bound yet. -/
def NewRowHandler (replaceVarMap : List (String × String))
    (replaceFunc : Option (String → String)) : RowHandler :=
  { replaceVarMap := replaceVarMap, replaceFunc := replaceFunc, currentCol := none }

/-- expand.go `RowHandler.WithColumn`: a new handler value bound to `c`;
the receiver is unchanged. -/
def RowHandler.WithColumn (h : RowHandler) (c : Column) : RowHandler :=
  { replaceVarMap := h.replaceVarMap, replaceFunc := h.replaceFunc, currentCol := some c }

/-- expand.go `RowHandler.HandleLine`. With an empty placeholder map the
line is returned unchanged before the column is ever touched. Otherwise the
loop body evaluates `h.currentCol.GetKey(rowName)`: on an unbound handler
this dereferences the nil column pointer and panics, modelled as `none`.
On a bound handler it builds the replacement pairs in map order, applies the
escape function when present, and rewrites the line with the replacer `nr`. -/
def RowHandler.HandleLine (nr : List (String × String) → String → String)
    (h : RowHandler) (line : String) : Option String :=
  if h.replaceVarMap = [] then some line
  else
    match h.currentCol with
    | none => none
    | some col =>
      some (nr (h.replaceVarMap.map (fun p =>
        (p.1, match h.replaceFunc with
              | some f => f (col.GetKey p.2)
              | none => col.GetKey p.2))) line)

/-- expand.go `ExpandHandler`: the interface has exactly the two
implementations used by the driver. -/
inductive ExpandHandler where
  | const (h : ConstHandler)
  | row (h : RowHandler)

/-- Dynamic dispatch of `HandleLine` on the two handler kinds; a panic of a
row handler propagates as `none`. -/
def ExpandHandler.HandleLine (nr : List (String × String) → String → String) :
    ExpandHandler → String → Option String
  | .const h, line => some (h.HandleLine line)
  | .row h, line => h.HandleLine nr line

/-- expand.go `ApplyExpandHandlers`: thread the line through the handlers in
the given order; a panic aborts the chain. -/
def ApplyExpandHandlers (nr : List (String × String) → String → String)
    (line : String) : List ExpandHandler → Option String
  | [] => some line
  | h :: rest =>
    match h.HandleLine nr line with
    | none => none
    | some out => ApplyExpandHandlers nr out rest

/-- The begin marker of the repeated region (expand.go `ExpandParseTex`). -/
def beginMarker : String := "%begin gummibaum repeat"

/-- The end marker of the repeated region (expand.go `ExpandParseTex`). -/
def endMarker : String := "%end gummibaum repeat"

/-- Go `strings.HasPrefix` on the underlying character sequences. -/
def hasPrefixL : List Char → List Char → Bool
  | [], _ => true
  | _ :: _, [] => false
  | p :: ps, c :: cs => p == c && hasPrefixL ps cs

/-- Go `strings.HasPrefix s pre`. -/
def strHasPrefix (s pre : String) : Bool :=
  hasPrefixL pre.toList s.toList

/-- The scanner state of expand.go `ExpandParseTex`. -/
inductive ExpandParseState where
  | inHead
  | inBody
  | inFoot
deriving DecidableEq

/-- The scanner loop of expand.go `ExpandParseTex`: one step per input line,
with the state transitions on the two markers; marker lines are discarded. -/
def expandParseLoop :
    ExpandParseState → List String → List String → List String → List String →
    ExpandParseState × List String × List String × List String
  | state, head, body, foot, [] => (state, head, body, foot)
  | .inHead, head, body, foot, line :: rest =>
    if strHasPrefix line beginMarker then expandParseLoop .inBody head body foot rest
    else expandParseLoop .inHead (head ++ [line]) body foot rest
  | .inBody, head, body, foot, line :: rest =>
    if strHasPrefix line endMarker then expandParseLoop .inFoot head body foot rest
    else expandParseLoop .inBody head (body ++ [line]) foot rest
  | .inFoot, head, body, foot, line :: rest =>
    expandParseLoop .inFoot head body (foot ++ [line]) rest

/-- expand.go `ExpandParseTex`: run the scanner from `inHead` over the input
lines; unless the final state is `inFoot` the split fails and no sections
are returned (`none` models the `nil, nil, nil, err` return). -/
def ExpandParseTex (lines : List String) :
    Option (List String × List String × List String) :=
  match expandParseLoop .inHead [] [] [] lines with
  | (.inFoot, head, body, foot) => some (head, body, foot)
  | _ => none

/-- Go `strings.Index s "="` followed by the two slices `s[:i]` and
`s[i+1:]`, on the character sequence: split at the first occurrence. -/
def splitAtFirstEq : List Char → Option (List Char × List Char)
  | [] => none
  | c :: rest =>
    if c = '=' then some ([], rest)
    else
      match splitAtFirstEq rest with
      | some (pre, post) => some (c :: pre, post)
      | none => none

/-- expand.go `ParseVarValPair`: split `var=val` at the first equals sign;
an input without an equals sign is a syntax error. -/
def ParseVarValPair (s : String) : Except String (String × String) :=
  match splitAtFirstEq s.toList with
  | none => .error ("Invalid variable / value pair " ++ s ++ ": Must be var=val")
  | some (pre, post) => .ok (String.mk pre, String.mk post)

/-- const.go `ParseConstPair`: the same split as `ParseVarValPair`. -/
def ParseConstPair (s : String) : Except String (String × String) :=
  match splitAtFirstEq s.toList with
  | none => .error ("Invalid variable / value pair " ++ s ++ ": Must be var=val")
  | some (pre, post) => .ok (String.mk pre, String.mk post)

/-- A Go `for` loop over `xs` whose body computes `f x` and panics when
`f x` panics (used by the driver's per-line write loops). -/
def seqOption {α β : Type} (f : α → Option β) : List α → Option (List β)
  | [] => some []
  | x :: rest =>
    match f x with
    | none => none
    | some y =>
      match seqOption f rest with
      | none => none
      | some ys => some (y :: ys)

/-- The body-lines computation of the driver's merge branch
(gummibaum.go `expand`, single-file case): with no csv the body loop is
skipped; otherwise build the collection and, for each column in order,
rewrite every body line through the const handler and the row handler
bound to that column. -/
def mergeBody (nr : List (String × String) → String → String)
    (constH : ConstHandler) (rowHandler : RowHandler) (csv : Option CSVReader)
    (body : List String) : Option (List (List String)) :=
  match csv with
  | none => some []
  | some r =>
    match NewCollection r.toSource () with
    | (.error _, _) => none
    | (.ok collection, _) =>
      seqOption (fun col =>
        seqOption (fun line =>
          ApplyExpandHandlers nr line [.const constH, .row (rowHandler.WithColumn col)]) body)
        collection.Columns

/-- The merge branch of gummibaum.go `expand` (single-file case): the lines
written to the one sink are the head lines through the const handler, then
the per-column body lines, then the foot lines through the const handler;
a panic anywhere aborts the run (`none`). -/
def mergeExpand (nr : List (String × String) → String → String)
    (constH : ConstHandler) (rowHandler : RowHandler) (csv : Option CSVReader)
    (head body foot : List String) : Option (List String) :=
  match seqOption (fun line => ApplyExpandHandlers nr line [.const constH]) head with
  | none => none
  | some headOut =>
    match mergeBody nr constH rowHandler csv body with
    | none => none
    | some bodyOut =>
      match seqOption (fun line => ApplyExpandHandlers nr line [.const constH]) foot with
      | none => none
      | some footOut => some (headOut ++ (bodyOut.flatten ++ footOut))

/-- The I/O environment of the fan-out branch: whether `os.Create` fails for
the file of the column at index `i`, and whether the `k`-th write into that
file fails. -/
structure FanOutEnv where
  openFails : Nat → Bool
  writeFails : Nat → Nat → Bool

/-- Outcome of writing the lines of one fan-out file. -/
inductive WriteOutcome where
  | completed
  | writeFailed
  | handlerPanic
deriving DecidableEq

/-- Sequentially write precomputed lines (each `none` if its handler chain
panicked) into one sink, with `wf k` deciding whether the `k`-th write
fails; returns the lines actually written and how the loop ended. -/
def writeLines (wf : Nat → Bool) :
    List (Option String) → Nat → List String × WriteOutcome
  | [], _ => ([], .completed)
  | none :: _, _ => ([], .handlerPanic)
  | some l :: rest, k =>
    if wf k then ([], .writeFailed)
    else
      let r := writeLines wf rest (k + 1)
      (l :: r.1, r.2)

/-- The handler-chain result for every line of one fan-out file, in write
order: head and foot through the const handler alone, body through the
const handler then the row handler bound to `col`
(gummibaum.go `expand`, fan-out case). -/
def columnOptLines (nr : List (String × String) → String → String)
    (constH : ConstHandler) (rowT : RowHandler) (col : Column)
    (head body foot : List String) : List (Option String) :=
  head.map (fun line => ApplyExpandHandlers nr line [.const constH])
  ++ body.map (fun line =>
       ApplyExpandHandlers nr line [.const constH, .row (rowT.WithColumn col)])
  ++ foot.map (fun line => ApplyExpandHandlers nr line [.const constH])

/-- Result of the fan-out loop: `done` when every remaining column was
processed, `writeAborted` when a write failure closed the current sink and
panicked the run, `crashed` when a handler panicked mid-file (the sink is
not closed in that case). `files` pairs each produced file's column index
with the lines written into it, in processing order. -/
inductive FanResult where
  | done (files : List (Nat × List String))
  | writeAborted (files : List (Nat × List String))
  | crashed (files : List (Nat × List String))
deriving DecidableEq

/-- The fan-out loop of gummibaum.go `expand` (`single-file` false): for the
column at index `i`, a failed open is logged and the column skipped; an open
sink receives head, body (bound to that column) and foot lines in order; a
failed write closes the sink and aborts the run without attempting further
columns; otherwise the sink is closed and the loop continues. -/
def fanOutRun (nr : List (String × String) → String → String)
    (env : FanOutEnv) (constH : ConstHandler) (rowT : RowHandler)
    (head body foot : List String) : List Column → Nat → FanResult
  | [], _ => .done []
  | col :: rest, i =>
    if env.openFails i then fanOutRun nr env constH rowT head body foot rest (i + 1)
    else
      match writeLines (env.writeFails i) (columnOptLines nr constH rowT col head body foot) 0 with
      | (written, .completed) =>
        match fanOutRun nr env constH rowT head body foot rest (i + 1) with
        | .done files => .done ((i, written) :: files)
        | .writeAborted files => .writeAborted ((i, written) :: files)
        | .crashed files => .crashed ((i, written) :: files)
      | (written, .writeFailed) => .writeAborted [(i, written)]
      | (written, .handlerPanic) => .crashed [(i, written)]

/-- Observable outcome of one `expand` run: a panic before any sink routing
(`fatal`), a silent return (fan-out without a csv), the lines written to the
single sink, or the fan-out files. -/
inductive RunResult where
  | fatal
  | silent
  | single (lines : List String)
  | fanned (r : FanResult)
deriving DecidableEq

/-- gummibaum.go `expand` after flag/config parsing. `rowMap` is the merged
row-placeholder map: when it is empty no `RowHandler` is constructed and the
whole input is copied line by line through the const handler to the single
sink — the file is not even split. Otherwise the input is split (a parse
error panics), and the single-file flag selects the merge branch or the
fan-out branch; fan-out without a csv source returns silently. -/
def expandRun (nr : List (String × String) → String → String)
    (constH : ConstHandler) (rowMap : List (String × String))
    (rf : Option (String → String)) (singleFile : Bool)
    (inputLines : List String) (csv : Option CSVReader) (env : FanOutEnv) : RunResult :=
  if rowMap = [] then
    .single (inputLines.map constH.HandleLine)
  else
    let rowHandler := NewRowHandler rowMap rf
    match ExpandParseTex inputLines with
    | none => .fatal
    | some (head, body, foot) =>
      if singleFile then
        match mergeExpand nr constH rowHandler csv head body foot with
        | none => .fatal
        | some out => .single out
      else
        match csv with
        | none => .silent
        | some r =>
          match NewCollection r.toSource () with
          | (.error _, _) => .fatal
          | (.ok collection, _) =>
            .fanned (fanOutRun nr env constH rowHandler head body foot collection.Columns 0)

/-- Pair each element of a list with its index, starting at `i` (the
`for i, col := range` enumeration of the fan-out loop). -/
def indexFrom {α : Type} (i : Nat) : List α → List (Nat × α)
  | [] => []
  | x :: rest => (i, x) :: indexFrom (i + 1) rest

/-- What one bound row handler makes of a line: unchanged for an empty
placeholder map, otherwise the replacer applied to the escaped column
values (the `some`-stripped result of `RowHandler.HandleLine` after
`WithColumn`). -/
def boundRowApply (nr : List (String × String) → String → String)
    (rowT : RowHandler) (col : Column) (line : String) : String :=
  if rowT.replaceVarMap = [] then line
  else
    nr (rowT.replaceVarMap.map (fun p =>
      (p.1, match rowT.replaceFunc with
            | some f => f (col.GetKey p.2)
            | none => col.GetKey p.2))) line

/-- The lines written into one fan-out file when no write fails: head and
foot through the const handler, body through the const handler and the
row handler bound to `col`. -/
def columnContent (nr : List (String × String) → String → String)
    (constH : ConstHandler) (rowT : RowHandler) (col : Column)
    (head body foot : List String) : List String :=
  head.map constH.HandleLine
  ++ body.map (fun line => boundRowApply nr rowT col (constH.HandleLine line))
  ++ foot.map constH.HandleLine

/-- A tiny in-memory collection source with a call-counting state, used to
evaluate `NewCollection` at concrete inputs. -/
def sampleSource : CollectionSource Nat :=
  { Head := fun n => (.ok ["h"], n + 1)
    Entries := fun n => (.ok [["1"], ["2"]], n + 10) }

/-- A fan-out environment where only the very first sink fails to open. -/
def sampleEnvOpenFail : FanOutEnv :=
  { openFails := fun i => i == 0, writeFails := fun _ _ => false }

/-- A fan-out environment where the second write into the first sink fails. -/
def sampleEnvWriteFail : FanOutEnv :=
  { openFails := fun _ => false, writeFails := fun i k => i == 0 && k == 1 }

/-! ## Helper lemmas -/

theorem seqOption_eq_some_map {α β : Type} (f : α → Option β) (g : α → β)
    (l : List α) (h : ∀ a ∈ l, f a = some (g a)) :
    seqOption f l = some (l.map g) := by
  induction l with
  | nil => rfl
  | cons x rest ih =>
    simp only [seqOption, h x (List.mem_cons_self x rest), List.map_cons]
    rw [ih (fun a ha => h a (List.mem_cons_of_mem x ha))]

theorem applyExpandHandlers_const
    (nr : List (String × String) → String → String) (ch : ConstHandler) (line : String) :
    ApplyExpandHandlers nr line [.const ch] = some (ch.HandleLine line) := rfl

theorem withColumn_handleLine
    (nr : List (String × String) → String → String) (rowT : RowHandler)
    (col : Column) (line : String) :
    (rowT.WithColumn col).HandleLine nr line = some (boundRowApply nr rowT col line) := by
  by_cases h : rowT.replaceVarMap = [] <;>
    simp [RowHandler.HandleLine, RowHandler.WithColumn, boundRowApply, h]

theorem applyExpandHandlers_const_row
    (nr : List (String × String) → String → String) (ch : ConstHandler)
    (rowT : RowHandler) (col : Column) (line : String) :
    ApplyExpandHandlers nr line [.const ch, .row (rowT.WithColumn col)] =
      some (boundRowApply nr rowT col (ch.HandleLine line)) := by
  simp [ApplyExpandHandlers, ExpandHandler.HandleLine, withColumn_handleLine]

theorem expandParseLoop_inFoot (h b f l : List String) :
    expandParseLoop .inFoot h b f l = (.inFoot, h, b, f ++ l) := by
  induction l generalizing f with
  | nil => simp [expandParseLoop]
  | cons x rest ih => simp [expandParseLoop, ih]

theorem expandParseLoop_inHead_skip (l₁ rest h b f : List String)
    (hfree : ∀ x ∈ l₁, strHasPrefix x beginMarker = false) :
    expandParseLoop .inHead h b f (l₁ ++ rest) =
      expandParseLoop .inHead (h ++ l₁) b f rest := by
  induction l₁ generalizing h with
  | nil => simp
  | cons x xs ih =>
    have hx := hfree x (List.mem_cons_self x xs)
    simp only [List.cons_append, expandParseLoop, hx, Bool.false_eq_true, if_false]
    simpa using ih (h ++ [x]) (fun a ha => hfree a (List.mem_cons_of_mem x ha))

theorem expandParseLoop_inBody_skip (l₂ rest h b f : List String)
    (hfree : ∀ x ∈ l₂, strHasPrefix x endMarker = false) :
    expandParseLoop .inBody h b f (l₂ ++ rest) =
      expandParseLoop .inBody h (b ++ l₂) f rest := by
  induction l₂ generalizing b with
  | nil => simp
  | cons x xs ih =>
    have hx := hfree x (List.mem_cons_self x xs)
    simp only [List.cons_append, expandParseLoop, hx, Bool.false_eq_true, if_false]
    simpa using ih (b ++ [x]) (fun a ha => hfree a (List.mem_cons_of_mem x ha))

theorem countP_eq_one_split {α : Type} (p : α → Bool) (l : List α)
    (h : l.countP p = 1) :
    ∃ l₁ a l₂, l = l₁ ++ a :: l₂ ∧ p a = true ∧
      (∀ x ∈ l₁, p x = false) ∧ (∀ x ∈ l₂, p x = false) := by
  induction l with
  | nil => simp [List.countP_nil] at h
  | cons x xs ih =>
    rw [List.countP_cons] at h
    by_cases hx : p x = true
    · rw [if_pos hx] at h
      refine ⟨[], x, xs, rfl, hx, by simp, ?_⟩
      have hz : xs.countP p = 0 := by omega
      intro a ha
      have := (List.countP_eq_zero.mp hz) a ha
      simpa using this
    · have hx0 : p x = false := by simpa using hx
      rw [hx0] at h
      simp at h
      obtain ⟨l₁, a, l₂, hdec, hpa, hl₁, hl₂⟩ := ih h
      exact ⟨x :: l₁, a, l₂, by rw [hdec]; simp, hpa,
        fun y hy => by
          rcases List.mem_cons.mp hy with hy | hy
          · rw [hy]; exact hx0
          · exact hl₁ y hy,
        hl₂⟩

theorem splitAtFirstEq_of_mem (cs : List Char) (h : '=' ∈ cs) :
    ∃ pre post, cs = pre ++ '=' :: post ∧ '=' ∉ pre ∧
      splitAtFirstEq cs = some (pre, post) := by
  induction cs with
  | nil => simp at h
  | cons c rest ih =>
    by_cases hc : c = '='
    · subst hc
      exact ⟨[], rest, rfl, by simp, by simp [splitAtFirstEq]⟩
    · have hmem : '=' ∈ rest := by
        rcases List.mem_cons.mp h with h | h
        · exact absurd h.symm hc
        · exact h
      obtain ⟨pre, post, hcs, hpre, hsplit⟩ := ih hmem
      refine ⟨c :: pre, post, by rw [hcs]; simp, ?_, ?_⟩
      · intro hmem2
        rcases List.mem_cons.mp hmem2 with h2 | h2
        · exact hc h2.symm
        · exact hpre h2
      · simp [splitAtFirstEq, hc, hsplit]

theorem splitAtFirstEq_of_not_mem (cs : List Char) (h : '=' ∉ cs) :
    splitAtFirstEq cs = none := by
  induction cs with
  | nil => rfl
  | cons c rest ih =>
    have hc : ¬ c = '=' := fun hc => h (by rw [hc]; exact List.mem_cons_self _ _)
    have hrest : '=' ∉ rest := fun hm => h (List.mem_cons_of_mem c hm)
    simp [splitAtFirstEq, hc, ih hrest]

/-! ## Claim theorems -/

/-- Claim C10: the var=val pair parser splits at the first equals sign — for
every string containing one, the variable is the (equals-free) part before
the first occurrence and the value is everything after it, with no error;
for a string with no equals sign it returns an error; and `ParseConstPair`
is the same function as `ParseVarValPair`. -/
theorem parse_var_val_first_eq (s : String) :
    (('=' ∈ s.toList) → ∃ pre post, s.toList = pre ++ '=' :: post ∧ '=' ∉ pre ∧
      ParseVarValPair s = .ok (String.mk pre, String.mk post)) ∧
    (('=' ∉ s.toList) → ∃ e, ParseVarValPair s = .error e) ∧
    ParseConstPair s = ParseVarValPair s := by
  refine ⟨?_, ?_, ?_⟩
  · intro h
    obtain ⟨pre, post, hcs, hpre, hsplit⟩ := splitAtFirstEq_of_mem s.toList h
    simp only [String.toList] at hsplit
    exact ⟨pre, post, hcs, hpre, by simp [ParseVarValPair, hsplit]⟩
  · intro h
    have hn := splitAtFirstEq_of_not_mem s.toList h
    simp only [String.toList] at hn
    exact ⟨"Invalid variable / value pair " ++ s ++ ": Must be var=val",
      by simp [ParseVarValPair, hn]⟩
  · simp [ParseVarValPair, ParseConstPair]

/-- Witness for C10 at the concrete inputs `"=a=b"` (split at the first of
two equals signs, empty variable accepted) and `"ab"` (no equals sign). -/
theorem parse_var_val_first_eq_witness :
    ('=' ∈ ("=a=b" : String).toList) ∧
    (∃ pre post, ("=a=b" : String).toList = pre ++ '=' :: post ∧ '=' ∉ pre ∧
      ParseVarValPair "=a=b" = .ok (String.mk pre, String.mk post)) ∧
    ('=' ∉ ("ab" : String).toList) ∧
    (∃ e, ParseVarValPair "ab" = .error e) :=
  ⟨by decide, (parse_var_val_first_eq "=a=b").1 (by decide),
   by decide, (parse_var_val_first_eq "ab").2.1 (by decide)⟩

/-- Claim C5 counterexample: a `RowHandler` that was never bound to a column
but whose placeholder map is empty does not fail on `HandleLine` — it
returns the line unchanged, contradicting the claim that an unbound handler
fails loudly regardless of whether the mapping is empty or non-empty. -/
theorem unbound_empty_rowhandler_counterexample :
    RowHandler.HandleLine (fun _ line => line) (NewRowHandler [] none) "x" = some "x" := rfl

/-- Claim C5 (amended): an unbound `RowHandler` whose placeholder map is
non-empty fails loudly on any line (nil-pointer panic when looking up the
first row name); with an empty map the line is returned unchanged. -/
theorem unbound_nonempty_rowhandler_panics
    (nr : List (String × String) → String → String)
    (rm : List (String × String)) (rf : Option (String → String))
    (line : String) (hrm : rm ≠ []) :
    RowHandler.HandleLine nr (NewRowHandler rm rf) line = none := by
  simp [RowHandler.HandleLine, NewRowHandler, hrm]

/-- Witness for the amended C5 at a concrete one-entry placeholder map. -/
theorem unbound_nonempty_rowhandler_panics_witness :
    ([(("a" : String), ("b" : String))] ≠ ([] : List (String × String))) ∧
    RowHandler.HandleLine (fun _ line => line) (NewRowHandler [("a", "b")] none) "x" = none :=
  ⟨by simp, unbound_nonempty_rowhandler_panics (fun _ line => line) [("a", "b")] none "x" (by simp)⟩

/-- Claim C4 counterexample: fan-out mode (`singleFile = false`) with a
3-column collection but an empty row-placeholder map does not produce three
files — the driver never constructs a row handler, never splits the
document, and copies the entire input (markers and body included) through
the const handler to the single sink. -/
theorem fanout_empty_rowmap_counterexample :
    expandRun (fun _ line => line) ⟨fun line => line⟩ [] none false
      ["h", "%begin gummibaum repeat", "b", "%end gummibaum repeat", "f"]
      (some ⟨["a"], [["1"], ["2"], ["3"]]⟩) ⟨fun _ => false, fun _ _ => false⟩
    = .single ["h", "%begin gummibaum repeat", "b", "%end gummibaum repeat", "f"] := rfl

/-- Claim C4 (amended): with an empty row-placeholder map the run ignores
the output-mode flag, the csv source and the fan-out environment entirely:
the whole input is written line by line through the const handler to the
single sink, with no repetition and no splitting. -/
theorem empty_rowmap_single_stream
    (nr : List (String × String) → String → String) (constH : ConstHandler)
    (rf : Option (String → String)) (singleFile : Bool)
    (inputLines : List String) (csv : Option CSVReader) (env : FanOutEnv) :
    expandRun nr constH [] rf singleFile inputLines csv env =
      .single (inputLines.map constH.HandleLine) := rfl

/-- Claim C3: an input whose (first) begin-marker line is never followed by
an end-marker line fails the split, and the failure carries no section
content. -/
theorem split_missing_end_fails (l₁ : List String) (bl : String) (l₂ : List String)
    (hbl : strHasPrefix bl beginMarker = true)
    (h₁ : ∀ x ∈ l₁, strHasPrefix x beginMarker = false)
    (h₂ : ∀ x ∈ l₂, strHasPrefix x endMarker = false) :
    ExpandParseTex (l₁ ++ bl :: l₂) = none := by
  unfold ExpandParseTex
  rw [expandParseLoop_inHead_skip l₁ (bl :: l₂) [] [] [] h₁]
  simp only [expandParseLoop, hbl, if_true]
  have h2 : expandParseLoop .inBody ([] ++ l₁) [] [] (l₂ ++ []) =
      expandParseLoop .inBody ([] ++ l₁) ([] ++ l₂) [] [] :=
    expandParseLoop_inBody_skip l₂ [] ([] ++ l₁) [] [] h₂
  rw [List.append_nil] at h2
  rw [h2]
  simp [expandParseLoop]

/-- Witness for C3 at a concrete three-line input with a begin marker and
no end marker. -/
theorem split_missing_end_fails_witness :
    (strHasPrefix "%begin gummibaum repeat" beginMarker = true) ∧
    ExpandParseTex (["a"] ++ "%begin gummibaum repeat" :: ["b"]) = none :=
  ⟨by decide,
   split_missing_end_fails ["a"] "%begin gummibaum repeat" ["b"]
     (by decide) (by decide) (by decide)⟩

/-- Claim C2: for an input with exactly one begin-marker line, followed
later by exactly one end-marker line, the split succeeds, the two marker
lines appear in no section (`len head + len body + len foot = total − 2`),
and splitting the same input again yields the same three sections. -/
theorem split_two_markers_sections (lines : List String)
    (hb : lines.countP (fun l => strHasPrefix l beginMarker) = 1)
    (he : lines.countP (fun l => strHasPrefix l endMarker) = 1)
    (horder : ∀ i j : Fin lines.length,
      strHasPrefix (lines.get i) beginMarker = true →
      strHasPrefix (lines.get j) endMarker = true → (i : Nat) < (j : Nat)) :
    (∃ head body foot, ExpandParseTex lines = some (head, body, foot) ∧
      head.length + body.length + foot.length = lines.length - 2) ∧
    (∀ h₁ b₁ f₁ h₂ b₂ f₂, ExpandParseTex lines = some (h₁, b₁, f₁) →
      ExpandParseTex lines = some (h₂, b₂, f₂) → h₁ = h₂ ∧ b₁ = b₂ ∧ f₁ = f₂) := by
  constructor
  · obtain ⟨A, bl, B, hdec, hbl, hA, hB⟩ :=
      countP_eq_one_split (fun l => strHasPrefix l beginMarker) lines hb
    subst hdec
    have hlenb : A.length < (A ++ bl :: B).length := by simp
    have hgetb : (A ++ bl :: B).get ⟨A.length, hlenb⟩ = bl := by
      rw [List.get_eq_getElem, List.getElem_append_right (Nat.le_refl A.length)]
      simp
    have hAend : ∀ x ∈ A, strHasPrefix x endMarker = false := by
      intro x hx
      by_contra hcon
      rw [Bool.not_eq_false] at hcon
      obtain ⟨t, ht, hxt⟩ := List.getElem_of_mem hx
      have htlen : t < (A ++ bl :: B).length := by simp; omega
      have hgett : (A ++ bl :: B).get ⟨t, htlen⟩ = x := by
        rw [List.get_eq_getElem, List.getElem_append_left ht]
        exact hxt
      have := horder ⟨A.length, hlenb⟩ ⟨t, htlen⟩
        (by rw [hgetb]; exact hbl) (by rw [hgett]; exact hcon)
      simp at this
      omega
    have hblend : strHasPrefix bl endMarker = false := by
      by_contra hcon
      rw [Bool.not_eq_false] at hcon
      have := horder ⟨A.length, hlenb⟩ ⟨A.length, hlenb⟩
        (by rw [hgetb]; exact hbl) (by rw [hgetb]; exact hcon)
      simp at this
    have hA0 : A.countP (fun l => strHasPrefix l endMarker) = 0 :=
      List.countP_eq_zero.mpr (fun a ha => by simp [hAend a ha])
    rw [List.countP_append, List.countP_cons, hA0] at he
    simp only [hblend] at he
    have heB : B.countP (fun l => strHasPrefix l endMarker) = 1 := by
      simp at he
      omega
    obtain ⟨B₁, el, B₂, hdecB, hel, hB₁, hB₂⟩ :=
      countP_eq_one_split (fun l => strHasPrefix l endMarker) B heB
    subst hdecB
    have hloop : expandParseLoop .inHead [] [] [] (A ++ bl :: (B₁ ++ el :: B₂)) =
        (.inFoot, A, B₁, B₂) := by
      rw [expandParseLoop_inHead_skip A _ [] [] [] hA]
      simp only [List.nil_append]
      rw [show expandParseLoop .inHead A [] [] (bl :: (B₁ ++ el :: B₂)) =
            expandParseLoop .inBody A [] [] (B₁ ++ el :: B₂) by
        simp [expandParseLoop, hbl]]
      rw [expandParseLoop_inBody_skip B₁ (el :: B₂) A [] [] hB₁]
      simp only [List.nil_append]
      rw [show expandParseLoop .inBody A B₁ [] (el :: B₂) =
            expandParseLoop .inFoot A B₁ [] B₂ by
        simp [expandParseLoop, hel]]
      rw [expandParseLoop_inFoot]
      simp
    refine ⟨A, B₁, B₂, ?_, ?_⟩
    · unfold ExpandParseTex
      rw [hloop]
    · simp [List.length_append]
      omega
  · intro h₁ b₁ f₁ h₂ b₂ f₂ e₁ e₂
    rw [e₁] at e₂
    simp only [Option.some.injEq, Prod.mk.injEq] at e₂
    exact ⟨e₂.1, e₂.2.1, e₂.2.2⟩

/-- Witness for C2 at a concrete five-line input: one begin marker at index
1 and one end marker at index 3. -/
theorem split_two_markers_sections_witness :
    ((["x", "%begin gummibaum repeat", "y", "%end gummibaum repeat", "z"] : List String).countP
        (fun l => strHasPrefix l beginMarker) = 1) ∧
    ((["x", "%begin gummibaum repeat", "y", "%end gummibaum repeat", "z"] : List String).countP
        (fun l => strHasPrefix l endMarker) = 1) ∧
    (∃ head body foot,
      ExpandParseTex ["x", "%begin gummibaum repeat", "y", "%end gummibaum repeat", "z"] =
        some (head, body, foot) ∧
      head.length + body.length + foot.length =
        (["x", "%begin gummibaum repeat", "y", "%end gummibaum repeat", "z"] : List String).length - 2) :=
  ⟨by decide, by decide,
   (split_two_markers_sections
     ["x", "%begin gummibaum repeat", "y", "%end gummibaum repeat", "z"]
     (by decide) (by decide) (by decide)).1⟩

theorem buildMap_append (pairs : List (String × String)) (p : String × String)
    (key : String) :
    buildMap (pairs ++ [p]) key = if key = p.1 then some p.2 else buildMap pairs key := by
  simp [buildMap, List.foldl_append, mapInsert]

theorem getD_append_last {α : Type} (l : List α) (p : α) (d : α) :
    (l ++ [p]).getD l.length d = p := by
  rw [List.getD_append_right l [p] d l.length (Nat.le_refl l.length)]
  simp

theorem buildMap_eq_some_iff (pairs : List (String × String)) (key v : String) :
    buildMap pairs key = some v ↔
      ∃ i, i < pairs.length ∧ (pairs.getD i ("", "")).1 = key ∧
        (pairs.getD i ("", "")).2 = v ∧
        ∀ j, i < j → j < pairs.length → (pairs.getD j ("", "")).1 ≠ key := by
  induction pairs using List.reverseRecOn with
  | nil => simp [buildMap]
  | append_singleton l p ih =>
    rw [buildMap_append]
    by_cases hk : key = p.1
    · rw [if_pos hk]
      constructor
      · intro hv
        refine ⟨l.length, by simp, ?_, ?_, ?_⟩
        · rw [getD_append_last]; exact hk.symm
        · rw [getD_append_last]; exact Option.some.inj hv
        · intro j hj hjlen
          simp at hjlen
          omega
      · rintro ⟨i, hi, h1, h2, hlast⟩
        simp at hi
        by_cases hil : i = l.length
        · subst hil
          rw [getD_append_last] at h2
          rw [h2]
        · exfalso
          exact hlast l.length (by omega) (by simp) (by rw [getD_append_last]; exact hk.symm)
    · rw [if_neg hk, ih]
      constructor
      · rintro ⟨i, hi, h1, h2, hlast⟩
        refine ⟨i, by simp; omega, ?_, ?_, ?_⟩
        · rw [List.getD_append _ _ _ _ hi]; exact h1
        · rw [List.getD_append _ _ _ _ hi]; exact h2
        · intro j hij hjlen
          simp at hjlen
          by_cases hjl : j < l.length
          · rw [List.getD_append _ _ _ _ hjl]
            exact hlast j hij hjl
          · have : j = l.length := by omega
            subst this
            rw [getD_append_last]
            exact fun hcon => hk hcon.symm
      · rintro ⟨i, hi, h1, h2, hlast⟩
        simp at hi
        by_cases hil : i = l.length
        · exfalso
          subst hil
          rw [getD_append_last] at h1
          exact hk h1.symm
        · have hi' : i < l.length := by omega
          rw [List.getD_append _ _ _ _ hi'] at h1 h2
          exact ⟨i, hi', h1, h2, fun j hij hjl =>
            by

              have := hlast j hij (by simp; omega)
              rw [List.getD_append _ _ _ _ hjl] at this
              exact this⟩

theorem buildMap_eq_none_iff (pairs : List (String × String)) (key : String) :
    buildMap pairs key = none ↔
      ∀ i, i < pairs.length → (pairs.getD i ("", "")).1 ≠ key := by
  induction pairs using List.reverseRecOn with
  | nil => simp [buildMap]
  | append_singleton l p ih =>
    rw [buildMap_append]
    by_cases hk : key = p.1
    · rw [if_pos hk]
      simp only [reduceCtorEq, false_iff]
      intro hall
      exact hall l.length (by simp) (by rw [getD_append_last]; exact hk.symm)
    · rw [if_neg hk, ih]
      constructor
      · intro hall j hj
        simp at hj
        by_cases hjl : j < l.length
        · rw [List.getD_append _ _ _ _ hjl]
          exact hall j hjl
        · have : j = l.length := by omega
          subst this
          rw [getD_append_last]
          exact fun hcon => hk hcon.symm
      · intro hall i hi
        have := hall i (by simp; omega)
        rw [List.getD_append _ _ _ _ hi] at this
        exact this

theorem zip_getD_lt (h e : List String) (i : Nat) (hi : i < min h.length e.length) :
    (h.zip e).getD i ("", "") = (h.getD i "", e.getD i "") := by
  induction h generalizing e i with
  | nil => simp at hi
  | cons a h' ihh =>
    cases e with
    | nil => simp at hi
    | cons b e' =>
      cases i with
      | zero => rfl
      | succ i' =>
        have hi' : i' < min h'.length e'.length := by
          simp at hi
          omega
        simpa using ihh e' i' hi'

/-- Claim C6: `NewColumn` pairs `head[i]` with `entries[i]` for every
`i < min (len head) (len entries)`; a name is mapped iff it occurs at such
an index, its value is the one paired with its last such occurrence
(duplicates: last wins), names or values beyond the min bound are unmapped
while values stay positionally reachable, and the concrete example
`head = ["a","b"]`, `values = ["1"]` behaves as specified. -/
theorem newColumn_lookup_semantics (head entries : List String) (name v : String) :
    ((NewColumn head entries).Map name = some v ↔
      ∃ i, i < min head.length entries.length ∧
        head.getD i "" = name ∧ entries.getD i "" = v ∧
        ∀ j, i < j → j < min head.length entries.length → head.getD j "" ≠ name) ∧
    ((NewColumn head entries).Map name ≠ none ↔
      ∃ i, i < min head.length entries.length ∧ head.getD i "" = name) ∧
    (∀ k : Nat, k < entries.length →
      (NewColumn head entries).GetPos (k : Int) = entries.getD k "") ∧
    (Column.GetPos (NewColumn ["a", "b"] ["1"]) 0 = "1" ∧
     Column.GetPos (NewColumn ["a", "b"] ["1"]) 1 = NoColEntry ∧
     Column.GetKey (NewColumn ["a", "b"] ["1"]) "a" = "1" ∧
     Column.GetKey (NewColumn ["a", "b"] ["1"]) "b" = NoColEntry) := by
  have hmap : (NewColumn head entries).Map = buildMap (head.zip entries) := rfl
  have hlen : (head.zip entries).length = min head.length entries.length :=
    List.length_zip head entries
  refine ⟨?_, ?_, ?_, by decide⟩
  · rw [hmap, buildMap_eq_some_iff]
    constructor
    · rintro ⟨i, hi, h1, h2, hlast⟩
      rw [hlen] at hi
      rw [zip_getD_lt head entries i hi] at h1 h2
      refine ⟨i, hi, h1, h2, fun j hij hj => ?_⟩
      have := hlast j hij (by rw [hlen]; exact hj)
      rw [zip_getD_lt head entries j hj] at this
      exact this
    · rintro ⟨i, hi, h1, h2, hlast⟩
      refine ⟨i, by rw [hlen]; exact hi, ?_, ?_, ?_⟩
      · rw [zip_getD_lt head entries i hi]; exact h1
      · rw [zip_getD_lt head entries i hi]; exact h2
      · intro j hij hj
        rw [hlen] at hj
        rw [zip_getD_lt head entries j hj]
        exact hlast j hij hj
  · rw [hmap]
    constructor
    · intro hne
      rcases hopt : buildMap (head.zip entries) name with _ | v'
      · exact absurd hopt hne
      · have := (buildMap_eq_some_iff (head.zip entries) name v').mp hopt
        obtain ⟨i, hi, h1, _, _⟩ := this
        rw [hlen] at hi
        rw [zip_getD_lt head entries i hi] at h1
        exact ⟨i, hi, h1⟩
    · rintro ⟨i, hi, h1⟩ hnone
      have := (buildMap_eq_none_iff (head.zip entries) name).mp hnone i (by rw [hlen]; exact hi)
      rw [zip_getD_lt head entries i hi] at this
      exact this h1
  · intro k hk
    have hcond : ¬(((k : Int) < 0) ∨ ((entries.length : Int) ≤ (k : Int))) := by
      push_neg
      exact ⟨Int.natCast_nonneg k, by exact_mod_cast hk⟩
    simp only [Column.GetPos, NewColumn, hcond, if_false]
    rw [Int.toNat_natCast]
    rw [List.getD_eq_getElem _ _ hk, List.getD_eq_getElem _ _ hk]

/-- Witness for C6: positional retrieval at index 0 of the one-entry value
list of the concrete example column. -/
theorem newColumn_lookup_semantics_witness :
    (0 < (["1"] : List String).length) ∧
    Column.GetPos (NewColumn ["a", "b"] ["1"]) ((0 : Nat) : Int) =
      (["1"] : List String).getD 0 "" :=
  ⟨by decide, (newColumn_lookup_semantics ["a", "b"] ["1"] "a" "1").2.2.1 0 (by decide)⟩

/-- Claim C7 counterexample: when a stored value is literally the sentinel
string, the best-effort tier answers the sentinel on a lookup that the
strict tier answers with `ok` — so "Get returns the sentinel iff Element
returns an error" fails as a biconditional. -/
theorem get_element_sentinel_collision :
    Column.Get (NewColumn ["a"] [NoColEntry]) (.int 0) = NoColEntry ∧
    Column.Element (NewColumn ["a"] [NoColEntry]) (.int 0) = .ok NoColEntry :=
  ⟨rfl, rfl⟩

/-- Claim C7 (amended): the two accessor tiers agree in lookup semantics —
a strict error always comes with the sentinel on the best-effort side, a
strict success always returns the same value on both sides, and for columns
whose stored values never equal the sentinel the correspondence is a full
biconditional. -/
theorem get_element_tiers_agree (c : Column) (key : ColKey) :
    (∀ e, c.Element key = .error e → c.Get key = NoColEntry) ∧
    (∀ v, c.Element key = .ok v → c.Get key = v) ∧
    ((NoColEntry ∉ c.Entries ∧ ∀ name, c.Map name ≠ some NoColEntry) →
      (c.Get key = NoColEntry ↔ ∃ e, c.Element key = .error e)) := by
  rcases key with v | s | _
  · by_cases hcond : (v < 0 ∨ (c.Entries.length : Int) ≤ v)
    · refine ⟨fun e _ => ?_, fun w hw => ?_, fun _ => ?_⟩
      · simp [Column.Get, Column.GetPos, hcond]
      · exfalso
        simp [Column.Element, Column.At, hcond] at hw
      · constructor
        · intro _
          exact ⟨NewColKeyError ("invalid index: " ++ toString v),
            by simp [Column.Element, Column.At, hcond]⟩
        · intro _
          simp [Column.Get, Column.GetPos, hcond]
    · have hc2 := hcond
      push_neg at hc2
      obtain ⟨h0, hlt⟩ := hc2
      have htn : v.toNat < c.Entries.length := by omega
      refine ⟨fun e he => ?_, fun w hw => ?_, fun h => ?_⟩
      · exfalso
        simp [Column.Element, Column.At, hcond] at he
      · simp [Column.Element, Column.At, hcond] at hw
        simp [Column.Get, Column.GetPos, hcond, hw]
      · obtain ⟨hent, _⟩ := h
        constructor
        · intro hget
          exfalso
          simp [Column.Get, Column.GetPos, hcond] at hget
          rw [List.getElem?_eq_getElem htn, Option.getD_some] at hget
          exact hent (hget ▸ List.getElem_mem htn)
        · rintro ⟨e, he⟩
          exfalso
          simp [Column.Element, Column.At, hcond] at he
  · rcases hm : c.Map s with _ | val
    · refine ⟨fun e _ => ?_, fun w hw => ?_, fun _ => ?_⟩
      · simp [Column.Get, Column.GetKey, hm]
      · exfalso
        simp [Column.Element, Column.Value, hm] at hw
      · constructor
        · intro _
          exact ⟨NewColKeyError ("invalid key: " ++ s),
            by simp [Column.Element, Column.Value, hm]⟩
        · intro _
          simp [Column.Get, Column.GetKey, hm]
    · refine ⟨fun e he => ?_, fun w hw => ?_, fun h => ?_⟩
      · exfalso
        simp [Column.Element, Column.Value, hm] at he
      · simp [Column.Element, Column.Value, hm] at hw
        simp [Column.Get, Column.GetKey, hm, hw]
      · obtain ⟨_, hmap⟩ := h
        constructor
        · intro hget
          exfalso
          simp [Column.Get, Column.GetKey, hm] at hget
          exact hmap s (by rw [hm, hget])
        · rintro ⟨e, he⟩
          exfalso
          simp [Column.Element, Column.Value, hm] at he
  · refine ⟨fun e _ => rfl, fun w hw => ?_, fun _ => ?_⟩
    · exfalso
      simp [Column.Element] at hw
    · exact ⟨fun _ => ⟨_, rfl⟩, fun _ => rfl⟩

/-- Witness for the amended C7: a successful strict lookup and the matching
best-effort lookup on a concrete one-column table. -/
theorem get_element_tiers_agree_witness :
    Column.Element (NewColumn ["a"] ["1"]) (.str "a") = .ok "1" ∧
    Column.Get (NewColumn ["a"] ["1"]) (.str "a") = "1" :=
  ⟨rfl, (get_element_tiers_agree (NewColumn ["a"] ["1"]) (.str "a")).2.1 "1" rfl⟩

/-- Claim C8: `NewCollection` performs exactly one head fetch and then one
entries fetch, propagates either fetch error unchanged with no collection
value, and otherwise builds one column per source row in source order, all
sharing the fetched head. -/
theorem newCollection_atomic {σ : Type} (source : CollectionSource σ) (s : σ) :
    (∀ e s₁, source.Head s = (.error e, s₁) → NewCollection source s = (.error e, s₁)) ∧
    (∀ head s₁ e s₂, source.Head s = (.ok head, s₁) → source.Entries s₁ = (.error e, s₂) →
      NewCollection source s = (.error e, s₂)) ∧
    (∀ head s₁ entries s₂, source.Head s = (.ok head, s₁) →
      source.Entries s₁ = (.ok entries, s₂) →
      NewCollection source s =
        (.ok { Head := head,
               Columns := entries.map (fun strCol => NewColumn head strCol) }, s₂) ∧
      (entries.map (fun strCol => NewColumn head strCol)).length = entries.length ∧
      ∀ col ∈ entries.map (fun strCol => NewColumn head strCol), col.Head = head) := by
  refine ⟨?_, ?_, ?_⟩
  · intro e s₁ h
    simp [NewCollection, h]
  · intro head s₁ e s₂ h1 h2
    simp [NewCollection, h1, h2]
  · intro head s₁ entries s₂ h1 h2
    refine ⟨by simp [NewCollection, h1, h2], by simp, ?_⟩
    intro col hcol
    obtain ⟨x, _, hx⟩ := List.mem_map.mp hcol
    rw [← hx]
    rfl

/-- Witness for C8 on the concrete counting source: one head fetch from
state 0, one entries fetch from state 1, final state 11. -/
theorem newCollection_atomic_witness :
    (sampleSource.Head 0 = (.ok ["h"], 1)) ∧
    (sampleSource.Entries 1 = (.ok [["1"], ["2"]], 11)) ∧
    NewCollection sampleSource 0 =
      (.ok { Head := ["h"],
             Columns := [["1"], ["2"]].map (fun strCol => NewColumn ["h"] strCol) }, 11) :=
  ⟨rfl, rfl,
   ((newCollection_atomic sampleSource 0).2.2 ["h"] 1 [["1"], ["2"]] 11 rfl rfl).1⟩

theorem mergeExpand_some (nr : List (String × String) → String → String)
    (constH : ConstHandler) (rowT : RowHandler) (r : CSVReader)
    (head body foot : List String) :
    mergeExpand nr constH rowT (some r) head body foot =
      some (head.map constH.HandleLine
        ++ (((r.ColumnsContent.map (fun strCol => NewColumn r.HeadContent strCol)).map
              (fun col => body.map (fun line =>
                boundRowApply nr rowT col (constH.HandleLine line)))).flatten
          ++ foot.map constH.HandleLine)) := by
  have hH : seqOption (fun line => ApplyExpandHandlers nr line [.const constH]) head =
      some (head.map (fun line => constH.HandleLine line)) :=
    seqOption_eq_some_map _ _ head (fun a _ => applyExpandHandlers_const nr constH a)
  have hF : seqOption (fun line => ApplyExpandHandlers nr line [.const constH]) foot =
      some (foot.map (fun line => constH.HandleLine line)) :=
    seqOption_eq_some_map _ _ foot (fun a _ => applyExpandHandlers_const nr constH a)
  have hcoll : NewCollection r.toSource () =
      (.ok { Head := r.HeadContent,
             Columns := r.ColumnsContent.map (fun strCol => NewColumn r.HeadContent strCol) },
       ()) := rfl
  have hB : seqOption (fun col =>
        seqOption (fun line =>
          ApplyExpandHandlers nr line [.const constH, .row (rowT.WithColumn col)]) body)
        (r.ColumnsContent.map (fun strCol => NewColumn r.HeadContent strCol)) =
      some ((r.ColumnsContent.map (fun strCol => NewColumn r.HeadContent strCol)).map
        (fun col => body.map (fun line =>
          boundRowApply nr rowT col (constH.HandleLine line)))) :=
    seqOption_eq_some_map _ _ _
      (fun col _ => seqOption_eq_some_map _ _ body
        (fun line _ => applyExpandHandlers_const_row nr constH rowT col line))
  simp only [mergeExpand, mergeBody, hcoll, hH, hB, hF]

/-- Claim C1: in merge mode, with a parsed document, a csv collection and a
non-empty row-placeholder map, the single sink receives exactly the head
lines through the const handler, then for each column in collection order
every body line through the const handler followed by the row handler bound
to that column, then the foot lines through the const handler — so the body
block contributes `columns × bodyLines` lines (for 3 columns and 2 body
lines, 6). -/
theorem merge_mode_output_order
    (nr : List (String × String) → String → String) (constH : ConstHandler)
    (rowMap : List (String × String)) (rf : Option (String → String))
    (r : CSVReader) (env : FanOutEnv) (inputLines head body foot : List String)
    (hrm : rowMap ≠ [])
    (hparse : ExpandParseTex inputLines = some (head, body, foot)) :
    expandRun nr constH rowMap rf true inputLines (some r) env =
      .single (head.map constH.HandleLine
        ++ (((r.ColumnsContent.map (fun strCol => NewColumn r.HeadContent strCol)).map
              (fun col => body.map (fun line =>
                boundRowApply nr (NewRowHandler rowMap rf) col (constH.HandleLine line)))).flatten
          ++ foot.map constH.HandleLine)) ∧
    ((r.ColumnsContent.map (fun strCol => NewColumn r.HeadContent strCol)).map
        (fun col => body.map (fun line =>
          boundRowApply nr (NewRowHandler rowMap rf) col (constH.HandleLine line)))).flatten.length
      = r.ColumnsContent.length * body.length := by
  constructor
  · simp only [expandRun, hrm, if_false, hparse, if_true]
    rw [mergeExpand_some]
  · rw [List.length_flatten]
    simp only [List.map_map]
    have hconst : (List.length ∘
          (fun col => body.map (fun line =>
            boundRowApply nr (NewRowHandler rowMap rf) col (constH.HandleLine line))) ∘
          fun strCol => NewColumn r.HeadContent strCol) =
        fun _ => body.length := by
      funext x
      simp [Function.comp]
    rw [hconst, List.map_const', List.sum_replicate, smul_eq_mul, mul_comm]

/-- Witness for C1: a five-line template, a three-column csv source, and the
identity replacer produce head, three copies of the body line, foot. -/
theorem merge_mode_output_order_witness :
    (([("x", "n")] : List (String × String)) ≠ []) ∧
    expandRun (fun _ line => line) ⟨fun line => line⟩ [("x", "n")] none true
      ["h", "%begin gummibaum repeat", "b", "%end gummibaum repeat", "f"]
      (some ⟨["n"], [["1"], ["2"], ["3"]]⟩) ⟨fun _ => false, fun _ _ => false⟩
      = .single ["h", "b", "b", "b", "f"] :=
  ⟨by simp,
   (merge_mode_output_order (fun _ line => line) ⟨fun line => line⟩ [("x", "n")] none
      ⟨["n"], [["1"], ["2"], ["3"]]⟩ ⟨fun _ => false, fun _ _ => false⟩
      ["h", "%begin gummibaum repeat", "b", "%end gummibaum repeat", "f"]
      ["h"] ["b"] ["f"] (by simp) (by rfl)).1.trans (by rfl)⟩

theorem columnOptLines_eq (nr : List (String × String) → String → String)
    (constH : ConstHandler) (rowT : RowHandler) (col : Column)
    (head body foot : List String) :
    columnOptLines nr constH rowT col head body foot =
      (columnContent nr constH rowT col head body foot).map some := by
  have h1 : (fun line => ApplyExpandHandlers nr line [.const constH]) =
      (fun line => some (constH.HandleLine line)) :=
    funext (fun line => applyExpandHandlers_const nr constH line)
  have h2 : (fun line => ApplyExpandHandlers nr line
        [.const constH, .row (rowT.WithColumn col)]) =
      (fun line => some (boundRowApply nr rowT col (constH.HandleLine line))) :=
    funext (fun line => applyExpandHandlers_const_row nr constH rowT col line)
  rw [columnOptLines, columnContent, h1, h2]
  simp only [List.map_map, List.map_append]
  rfl

theorem writeLines_all_some_completed (wf : Nat → Bool) (ls : List String) (k : Nat)
    (hwf : ∀ j, wf j = false) :
    writeLines wf (ls.map some) k = (ls, .completed) := by
  induction ls generalizing k with
  | nil => rfl
  | cons l rest ih =>
    simp [writeLines, hwf k, ih (k + 1)]

theorem writeLines_first_fail (wf : Nat → Bool) (ls : List String) (k m : Nat)
    (hbelow : ∀ j, j < m → wf (k + j) = false)
    (hm : m < ls.length) (hfail : wf (k + m) = true) :
    writeLines wf (ls.map some) k = (ls.take m, .writeFailed) := by
  induction ls generalizing k m with
  | nil => simp at hm
  | cons l rest ih =>
    cases m with
    | zero =>
      have hk : wf k = true := by simpa using hfail
      simp [writeLines, hk]
    | succ m' =>
      have hk : wf k = false := by simpa using hbelow 0 (Nat.succ_pos m')
      simp only [List.map_cons, writeLines, hk, Bool.false_eq_true, if_false]
      have hrec := ih (k + 1) m'
        (fun j hj => by
          have h := hbelow (j + 1) (by omega)
          rw [show k + 1 + j = k + (j + 1) from by omega]
          exact h)
        (by simpa using hm)
        (by rw [show k + 1 + m' = k + (m' + 1) from by omega]; exact hfail)
      rw [hrec]
      simp

/-- Claim C9: in fan-out mode a failed sink open skips exactly that column
(the run continues and every other column still gets its full file), while
a write failure on an open sink is fatal — the sink is closed with the
lines written so far and no later column is attempted. -/
theorem fanout_open_skip_write_fatal
    (nr : List (String × String) → String → String) (env : FanOutEnv)
    (constH : ConstHandler) (rowT : RowHandler) (head body foot : List String) :
    ((∀ j k, env.writeFails j k = false) →
      ∀ cols i, fanOutRun nr env constH rowT head body foot cols i =
        .done (((indexFrom i cols).filter (fun p => !env.openFails p.1)).map
          (fun p => (p.1, columnContent nr constH rowT p.2 head body foot)))) ∧
    (∀ col rest i m, env.openFails i = false →
      (∀ k, k < m → env.writeFails i k = false) →
      m < (columnContent nr constH rowT col head body foot).length →
      env.writeFails i m = true →
      fanOutRun nr env constH rowT head body foot (col :: rest) i =
        .writeAborted [(i, (columnContent nr constH rowT col head body foot).take m)]) := by
  constructor
  · intro hnw cols
    induction cols with
    | nil => intro i; rfl
    | cons col rest ih =>
      intro i
      by_cases ho : env.openFails i
      · simp only [fanOutRun, ho, if_true, indexFrom]
        rw [ih (i + 1)]
        simp [ho]
      · simp only [fanOutRun, ho, Bool.false_eq_true, if_false]
        rw [columnOptLines_eq,
          writeLines_all_some_completed (env.writeFails i) _ 0 (hnw i), ih (i + 1)]
        simp [indexFrom, ho]
  · intro col rest i m ho hbelow hm hfail
    simp only [fanOutRun, ho, Bool.false_eq_true, if_false]
    rw [columnOptLines_eq,
      writeLines_first_fail (env.writeFails i) _ 0 m
        (fun j hj => by simpa using hbelow j hj) hm (by simpa using hfail)]

/-- Witness for C9: with two columns, an open failure on the first sink
skips only that column; with a write failure at the second write of the
first sink the run aborts with the one-line partial file and never reaches
the second column. -/
theorem fanout_open_skip_write_fatal_witness :
    (∀ j k, sampleEnvOpenFail.writeFails j k = false) ∧
    fanOutRun (fun _ line => line) sampleEnvOpenFail ⟨fun line => line⟩
      (NewRowHandler [] none) ["h"] ["b"] ["f"]
      [NewColumn ["n"] ["1"], NewColumn ["n"] ["2"]] 0 =
      .done [(1, ["h", "b", "f"])] ∧
    (sampleEnvWriteFail.openFails 0 = false) ∧
    (sampleEnvWriteFail.writeFails 0 1 = true) ∧
    fanOutRun (fun _ line => line) sampleEnvWriteFail ⟨fun line => line⟩
      (NewRowHandler [] none) ["h"] ["b"] ["f"]
      [NewColumn ["n"] ["1"], NewColumn ["n"] ["2"]] 0 =
      .writeAborted [(0, ["h"])] :=
  ⟨fun _ _ => rfl,
   ((fanout_open_skip_write_fatal (fun _ line => line) sampleEnvOpenFail ⟨fun line => line⟩
      (NewRowHandler [] none) ["h"] ["b"] ["f"]).1 (fun _ _ => rfl)
      [NewColumn ["n"] ["1"], NewColumn ["n"] ["2"]] 0).trans (by rfl),
   rfl, rfl,
   ((fanout_open_skip_write_fatal (fun _ line => line) sampleEnvWriteFail ⟨fun line => line⟩
      (NewRowHandler [] none) ["h"] ["b"] ["f"]).2
      (NewColumn ["n"] ["1"]) [NewColumn ["n"] ["2"]] 0 1 rfl
      (fun k hk => by
        have : k = 0 := by omega
        subst this
        rfl)
      (by decide) rfl).trans (by rfl)⟩

end Gummibaum
